import Mathlib

/-!
Verification development for the signal-engine core of the trading-bot
repository (`src/signal_engine.py`).

Modelling choices:
* Python/NumPy 64-bit floats are modelled as exact real numbers (`ℝ`);
  the claims under study are about the numeric formulas and branch
  structure, not about rounding of individual float operations.
* A candle array (NumPy 2-D array of shape `(n, k)`) is modelled as a
  `List (List ℝ)` of rows; column extraction `candles[:, j]` is the
  fallible `column j` below, mirroring NumPy's `IndexError` when a row
  lacks column `j`.
* NumPy negative-index slices are modelled by the helpers `npLast`,
  `lastN`, `npDiff`; `xs[-n:]` is `lastN n xs` (faithful for `n ≥ 1`,
  which covers every use in the source), `xs[:-1]` is `xs.dropLast`,
  `xs[-1]` is `npLast xs` (call sites guarantee nonempty input, so the
  default value of `npLast` is never exercised).
* The wall-clock `timestamp` field of `CompositeSignal` is omitted from
  the model: it is the one explicitly non-deterministic output field and
  every claim excludes it.
* The `indicators` maps carry the raw indicator values; the source
  rounds some of them for display only (`round(x, 2)`), which no claim
  depends on, so display rounding is not modelled.
-/

/-- SignalType enumeration from `signal_engine.py` (`class SignalType(Enum)`). -/
inductive SignalType
  | STRONG_LONG
  | LONG
  | NEUTRAL
  | SHORT
  | STRONG_SHORT
deriving DecidableEq, Repr

/-- Numeric value of each SignalType, exactly the Python enum values. -/
def SignalType.value : SignalType → Int
  | .STRONG_LONG => 2
  | .LONG => 1
  | .NEUTRAL => 0
  | .SHORT => -1
  | .STRONG_SHORT => -2

/-- Output of a single strategy (`@dataclass StrategySignal`). -/
structure StrategySignal where
  name : String
  signal : SignalType
  confidence : ℝ
  indicators : List (String × ℝ)
  reason : String

/-- Combined signal from all strategies (`@dataclass CompositeSignal`),
without the wall-clock `timestamp` field (see module docstring). -/
structure CompositeSignal where
  symbol : String
  price : ℝ
  signal : SignalType
  confidence : ℝ
  strategies : List StrategySignal

/-- Model of NumPy `xs[-1]`; call sites guarantee `xs` is nonempty. -/
def npLast (xs : List ℝ) : ℝ := xs.getLastD 0

/-- Model of NumPy `xs[-n:]` for `n ≥ 1`: the trailing `min n (length xs)`
elements. -/
def lastN (n : ℕ) (xs : List ℝ) : List ℝ := xs.drop (xs.length - n)

/-- Model of `np.mean`: sum divided by length. Every call site guards
against the empty list. -/
noncomputable def mean (xs : List ℝ) : ℝ := xs.sum / (xs.length : ℝ)

/-- Model of `np.diff`: consecutive differences `xs[i+1] - xs[i]`. -/
def npDiff (xs : List ℝ) : List ℝ := List.zipWith (fun a b => b - a) xs xs.tail

/-- Model of `candles[:, j]`: extract column `j` from every row, failing
(like NumPy's `IndexError`) when a row lacks column `j`. -/
def column (j : ℕ) : List (List ℝ) → Option (List ℝ)
  | [] => some []
  | row :: rest =>
    match row.get? j, column j rest with
    | some x, some xs => some (x :: xs)
    | _, _ => none

/-- RSI indicator (`calculate_rsi`): source computes `np.diff`, splits it
into gains/losses with `np.where`, and averages the trailing `period`
entries of each. -/
noncomputable def calculate_rsi (closes : List ℝ) (period : ℕ) : ℝ :=
  if closes.length < period + 1 then 50.0
  else
    let deltas := npDiff closes
    let gains := deltas.map (fun d => if d > 0 then d else 0)
    let losses := deltas.map (fun d => if d < 0 then -d else 0)
    let avg_gain := mean (lastN period gains)
    let avg_loss := mean (lastN period losses)
    if avg_loss = 0 then 100.0
    else 100 - 100 / (1 + avg_gain / avg_loss)

/-- Bollinger bands (`calculate_bollinger_bands`), returning
`(upper, sma, lower)`; `np.std` is the population standard deviation. -/
noncomputable def calculate_bollinger_bands (closes : List ℝ) (period : ℕ) (std : ℝ) :
    ℝ × ℝ × ℝ :=
  if closes.length < period then (npLast closes, npLast closes, npLast closes)
  else
    let window := lastN period closes
    let sma := mean window
    let std_dev := Real.sqrt (mean (window.map (fun x => (x - sma) ^ 2)))
    (sma + std * std_dev, sma, sma - std * std_dev)

/-- EMA indicator (`calculate_ema`): seeded with `closes[0]` and folded
forward over `closes[1:]` with multiplier `2 / (period + 1)`. Call sites
use periods 8, 12, 21 and 26, so the `headD` default is never exercised. -/
noncomputable def calculate_ema (closes : List ℝ) (period : ℕ) : ℝ :=
  if closes.length < period then npLast closes
  else
    let multiplier : ℝ := 2 / ((period : ℝ) + 1)
    closes.tail.foldl (fun ema price => price * multiplier + ema * (1 - multiplier))
      (closes.headD 0)

/-- MACD indicator (`calculate_macd`), returning
`(macd_line, signal_line, histogram)`; the signal line is the source's
documented `macd_line * 0.9` approximation. -/
noncomputable def calculate_macd (closes : List ℝ) : ℝ × ℝ × ℝ :=
  let macd_line := calculate_ema closes 12 - calculate_ema closes 26
  let signal_line := macd_line * 0.9
  let histogram := macd_line - signal_line
  (macd_line, signal_line, histogram)

/-- Raw (pre-clamp) classification of the RSI mean-reversion strategy:
the branch cascade of `strategy_rsi_mean_reversion`, producing
`(signal, confidence, reason)` before the final `min(confidence, 100)`. -/
noncomputable def rsiRaw (closes : List ℝ) : SignalType × ℝ × String :=
  let price := npLast closes
  let rsi := calculate_rsi closes 14
  let bb := calculate_bollinger_bands closes 20 2
  if rsi < 30 ∧ price < bb.2.2 then
    (.STRONG_LONG, 80 + (30 - rsi), "Oversold: RSI low, price below lower BB")
  else if rsi < 35 ∧ price < bb.2.1 then
    (.LONG, 60 + (35 - rsi), "Near oversold")
  else if rsi > 70 ∧ price > bb.1 then
    (.STRONG_SHORT, 80 + (rsi - 70), "Overbought: RSI high, price above upper BB")
  else if rsi > 65 ∧ price > bb.2.1 then
    (.SHORT, 60 + (rsi - 65), "Near overbought")
  else (.NEUTRAL, 50.0, "No clear signal")

/-- RSI + Bollinger Bands mean reversion (`strategy_rsi_mean_reversion`). -/
noncomputable def strategy_rsi_mean_reversion (closes : List ℝ) : StrategySignal :=
  ⟨"RSI Mean Reversion", (rsiRaw closes).1, min (rsiRaw closes).2.1 100,
    [("rsi", calculate_rsi closes 14),
     ("bb_lower", (calculate_bollinger_bands closes 20 2).2.2),
     ("bb_upper", (calculate_bollinger_bands closes 20 2).1)],
    (rsiRaw closes).2.2⟩

/-- Raw classification of the golden-cross strategy: the branch cascade of
`strategy_golden_cross` (the source applies no clamp in this strategy). -/
noncomputable def gcRaw (closes : List ℝ) : SignalType × ℝ × String :=
  let fast_ema := calculate_ema closes 8
  let slow_ema := calculate_ema closes 21
  let prev_fast := if closes.length > 1 then calculate_ema closes.dropLast 8 else fast_ema
  let prev_slow := if closes.length > 1 then calculate_ema closes.dropLast 21 else slow_ema
  if prev_fast ≤ prev_slow ∧ fast_ema > slow_ema then
    (.LONG, 70.0, "Golden cross: Fast EMA crossed above Slow EMA")
  else if prev_fast ≥ prev_slow ∧ fast_ema < slow_ema then
    (.SHORT, 70.0, "Death cross: Fast EMA crossed below Slow EMA")
  else if fast_ema > slow_ema then
    (.LONG, 55.0, "Uptrend: Fast EMA above Slow EMA")
  else if fast_ema < slow_ema then
    (.SHORT, 55.0, "Downtrend: Fast EMA below Slow EMA")
  else (.NEUTRAL, 50.0, "No crossover")

/-- EMA crossover trend following (`strategy_golden_cross`). -/
noncomputable def strategy_golden_cross (closes : List ℝ) : StrategySignal :=
  ⟨"Golden Cross", (gcRaw closes).1, (gcRaw closes).2.1,
    [("fast_ema", calculate_ema closes 8), ("slow_ema", calculate_ema closes 21)],
    (gcRaw closes).2.2⟩

/-- Raw (pre-clamp) classification of the MACD momentum strategy: the
branch cascade of `strategy_macd`. -/
noncomputable def macdRaw (closes : List ℝ) : SignalType × ℝ × String :=
  let m := calculate_macd closes
  if m.2.2 > 0 ∧ m.1 > 0 then
    (.LONG, 60 + min (abs m.2.2 * 10) 30, "Bullish MACD")
  else if m.2.2 < 0 ∧ m.1 < 0 then
    (.SHORT, 60 + min (abs m.2.2 * 10) 30, "Bearish MACD")
  else (.NEUTRAL, 50.0, "No clear MACD signal")

/-- MACD momentum strategy (`strategy_macd`). -/
noncomputable def strategy_macd (closes : List ℝ) : StrategySignal :=
  ⟨"MACD", (macdRaw closes).1, min (macdRaw closes).2.1 100,
    [("macd", (calculate_macd closes).1), ("signal", (calculate_macd closes).2.1),
     ("histogram", (calculate_macd closes).2.2)],
    (macdRaw closes).2.2⟩

/-- Volume ratio of `strategy_volume_breakout`:
`current_vol / avg_vol if avg_vol > 0 else 1.0`, where `avg_vol` averages
`volumes[-20:-1]` (the last 20 excluding the current one). -/
noncomputable def volRatioOf (volumes : List ℝ) : ℝ :=
  let current_vol := npLast volumes
  let avg_vol := mean (lastN 20 volumes).dropLast
  if avg_vol > 0 then current_vol / avg_vol else 1.0

/-- Price change of `strategy_volume_breakout`:
`(closes[-1] - closes[-2]) / closes[-2] if closes[-2] > 0 else 0`. -/
noncomputable def priceChangeOf (closes : List ℝ) : ℝ :=
  let prev := npLast closes.dropLast
  if prev > 0 then (npLast closes - prev) / prev else 0

/-- Raw (pre-clamp) classification of the volume-breakout strategy for the
data-rich case (`len(volumes) ≥ 20`): the branch cascade of
`strategy_volume_breakout`. -/
noncomputable def vbRaw (closes volumes : List ℝ) : SignalType × ℝ × String :=
  let vr := volRatioOf volumes
  let pc := priceChangeOf closes
  if vr > 2.0 ∧ pc > 0.01 then
    (.STRONG_LONG, 75 + min (vr * 5) 20, "Volume breakout UP")
  else if vr > 1.5 ∧ pc > 0.005 then
    (.LONG, 60 + min (vr * 5) 20, "High volume UP")
  else if vr > 2.0 ∧ pc < -0.01 then
    (.STRONG_SHORT, 75 + min (vr * 5) 20, "Volume breakdown")
  else if vr > 1.5 ∧ pc < -0.005 then
    (.SHORT, 60 + min (vr * 5) 20, "High volume DOWN")
  else (.NEUTRAL, 50.0, "Normal volume")

/-- Volume-based breakout detection (`strategy_volume_breakout`). -/
noncomputable def strategy_volume_breakout (closes volumes : List ℝ) : StrategySignal :=
  if volumes.length < 20 then
    ⟨"Volume Breakout", .NEUTRAL, 50.0, [], "Not enough data"⟩
  else
    ⟨"Volume Breakout", (vbRaw closes volumes).1, min (vbRaw closes volumes).2.1 100,
      [("vol_ratio", volRatioOf volumes), ("price_change", priceChangeOf closes * 100)],
      (vbRaw closes volumes).2.2⟩

/-- Weight lookup `self.weights.get(strat.name, self.default_weight)`:
the engine's weight table with default weight 1.0 for absent names. -/
def stratWeight (weights : List (String × ℝ)) (nm : String) : ℝ :=
  match weights.find? (fun p => p.1 == nm) with
  | some p => p.2
  | none => 1.0

/-- The strategy list built by `analyze`: all four strategies run on the
same candle data. -/
noncomputable def runStrategies (closes volumes : List ℝ) : List StrategySignal :=
  [strategy_rsi_mean_reversion closes,
   strategy_golden_cross closes,
   strategy_macd closes,
   strategy_volume_breakout closes volumes]

/-- Accumulation loop of `analyze`, returning
`(total_weight, weighted_signal, weighted_confidence)`. -/
noncomputable def aggregateFold (weights : List (String × ℝ)) (strats : List StrategySignal) :
    ℝ × ℝ × ℝ :=
  strats.foldl
    (fun acc s =>
      let w := stratWeight weights s.name
      (acc.1 + w,
       acc.2.1 + (s.signal.value : ℝ) * w * (s.confidence / 100),
       acc.2.2 + s.confidence * w))
    (0, 0, 0)

/-- Averaging step of `analyze` after the accumulation loop:
`(avg_signal, avg_confidence)`, with the defensive `(0, 50)` fallback when
the total weight is not positive. -/
noncomputable def combineAverages (acc : ℝ × ℝ × ℝ) : ℝ × ℝ :=
  if acc.1 > 0 then (acc.2.1 / acc.1, acc.2.2 / acc.1) else (0, 50)

/-- Discretization of `avg_signal` back to a SignalType, in the source's
branch order. -/
noncomputable def classify (avg_signal : ℝ) : SignalType :=
  if avg_signal ≥ 1.5 then .STRONG_LONG
  else if avg_signal ≥ 0.5 then .LONG
  else if avg_signal ≤ -1.5 then .STRONG_SHORT
  else if avg_signal ≤ -0.5 then .SHORT
  else .NEUTRAL

/-- Body of `analyze` once the candle columns have been extracted
successfully: run all four strategies, aggregate, discretize. -/
noncomputable def analyzeCore (weights : List (String × ℝ)) (symbol : String) (price : ℝ)
    (closes volumes : List ℝ) : CompositeSignal :=
  let strategies := runStrategies closes volumes
  let acc := aggregateFold weights strategies
  let avgs := combineAverages acc
  ⟨symbol, price, classify avgs.1, avgs.2, strategies⟩

/-- Entry point `analyze(symbol, candles)`: reads `price = candles[-1, 4]`
and the close/volume columns, propagating NumPy's `IndexError` (modelled
as `Except.error`) when the array is empty or a row lacks the expected
OHLCV columns. -/
noncomputable def analyze (weights : List (String × ℝ)) (symbol : String)
    (candles : List (List ℝ)) : Except String CompositeSignal :=
  match candles.getLast? with
  | none => Except.error "invalid input: empty candle array"
  | some lastRow =>
    match lastRow.get? 4 with
    | none => Except.error "invalid input: row without a close column"
    | some price =>
      match column 4 candles, column 5 candles with
      | some closes, some volumes =>
        Except.ok (analyzeCore weights symbol price closes volumes)
      | _, _ => Except.error "invalid input: rows without the expected OHLCV columns"

/-- Well-formedness contract of the candle array: at least one row, and
every row exposes the six OHLCV columns
`[time, open, high, low, close, volume]`. -/
def wellFormed (candles : List (List ℝ)) : Prop :=
  candles ≠ [] ∧ ∀ row ∈ candles, 6 ≤ row.length

/-- Statement of the spec's RSI computation, written from the spec's
wording (for refinement claim C4): take the trailing `period` deltas
first, then average their positive parts (gains) and the positive parts
of their negations (losses). -/
noncomputable def rsiSpec (closes : List ℝ) (period : ℕ) : ℝ :=
  if closes.length < period + 1 then 50.0
  else
    let tdeltas := lastN period (npDiff closes)
    let avg_gain := mean (tdeltas.map (fun d => max d 0))
    let avg_loss := mean (tdeltas.map (fun d => max (-d) 0))
    if avg_loss = 0 then 100.0
    else 100 - 100 / (1 + avg_gain / avg_loss)

/-- Spec-side total weight of the aggregator (for refinement claim C3):
the sum of the per-strategy weights. -/
noncomputable def specTotalWeight (weights : List (String × ℝ)) (strats : List StrategySignal) : ℝ :=
  (strats.map (fun s => stratWeight weights s.name)).sum

/-- Spec-side weighted signal sum of the aggregator (claim C3): the sum of
the contributions `signal.numericValue * weight * (confidence / 100)`. -/
noncomputable def specSignalSum (weights : List (String × ℝ)) (strats : List StrategySignal) : ℝ :=
  (strats.map (fun s => (s.signal.value : ℝ) * stratWeight weights s.name * (s.confidence / 100))).sum

/-- Spec-side weighted confidence sum of the aggregator (claim C3): the
sum of `confidence * weight`. -/
noncomputable def specConfSum (weights : List (String × ℝ)) (strats : List StrategySignal) : ℝ :=
  (strats.map (fun s => s.confidence * stratWeight weights s.name)).sum

/-- Spec-side slice for claim C5: the previous 19 volumes, i.e. the
trailing 19 entries of the series with the current (last) volume removed. -/
def prevVolumes19 (volumes : List ℝ) : List ℝ := lastN 19 volumes.dropLast

/-- Concrete close series for the C5 counterexample: twenty closes ending
in a previous close of -1 and a last close of 1. -/
noncomputable def c5closes : List ℝ := List.replicate 18 1 ++ [-1, 1]

/-- Concrete volume series for the C5 counterexample: twenty volumes of 1. -/
noncomputable def c5volumes : List ℝ := List.replicate 20 1

/-- C6: the aggregator's discretization of `avg_signal` into a SignalType
is monotonic — for every pair of real values `a < b`, the numeric value of
the SignalType assigned to `a` is at most the one assigned to `b`. -/
theorem classify_monotone (a b : ℝ) (hab : a < b) :
    (classify a).value ≤ (classify b).value := by
  unfold classify
  split_ifs <;> simp_all [SignalType.value] <;> linarith

/-- Witness for C6 at the concrete pair 0 < 1. -/
theorem classify_monotone_witness :
    (0 : ℝ) < 1 ∧ (classify 0).value ≤ (classify 1).value :=
  ⟨by norm_num, classify_monotone 0 1 (by norm_num)⟩

/-- C7: `calculate_macd` returns the EMA(12) − EMA(26) difference as the
MACD line, the documented `macd_line * 0.9` approximation as the signal
line, and their difference as the histogram. -/
theorem macd_matches_spec (closes : List ℝ) :
    calculate_macd closes =
      (calculate_ema closes 12 - calculate_ema closes 26,
       (calculate_ema closes 12 - calculate_ema closes 26) * 0.9,
       (calculate_ema closes 12 - calculate_ema closes 26)
         - (calculate_ema closes 12 - calculate_ema closes 26) * 0.9) := rfl

/-- C8: `analyze` is deterministic — two calls with identical weight
table, symbol and candle array produce identical composite results
(the model omits the wall-clock timestamp, the one field allowed to
differ). -/
theorem analyze_deterministic (w₁ w₂ : List (String × ℝ)) (s₁ s₂ : String)
    (c₁ c₂ : List (List ℝ)) (hw : w₁ = w₂) (hs : s₁ = s₂) (hc : c₁ = c₂) :
    analyze w₁ s₁ c₁ = analyze w₂ s₂ c₂ := by
  subst hw; subst hs; subst hc; rfl

/-- Witness for C8 at a concrete repeated call. -/
theorem analyze_deterministic_witness :
    analyze [] "BTCUSD" [[0, 0, 0, 0, 0, 0]] = analyze [] "BTCUSD" [[0, 0, 0, 0, 0, 0]] :=
  analyze_deterministic [] [] "BTCUSD" "BTCUSD" [[0, 0, 0, 0, 0, 0]] [[0, 0, 0, 0, 0, 0]]
    rfl rfl rfl

/-- C9: the MACD histogram equals one tenth of the MACD line, so the two
always share a sign; the strategy's compound branch conditions collapse
to the sign of the MACD line alone, and its non-neutral confidence equals
`60 + min |macd_line| 30`. -/
theorem macd_histogram_tenth (closes : List ℝ) :
    (calculate_macd closes).2.2 = 0.1 * (calculate_macd closes).1
    ∧ ((calculate_macd closes).2.2 > 0 ∧ (calculate_macd closes).1 > 0 ↔
        (calculate_macd closes).1 > 0)
    ∧ ((calculate_macd closes).2.2 < 0 ∧ (calculate_macd closes).1 < 0 ↔
        (calculate_macd closes).1 < 0)
    ∧ ((strategy_macd closes).signal ≠ .NEUTRAL →
        (strategy_macd closes).confidence = 60 + min (abs (calculate_macd closes).1) 30) := by
  have h1 : (calculate_macd closes).2.2 = 0.1 * (calculate_macd closes).1 := by
    show calculate_ema closes 12 - calculate_ema closes 26
          - (calculate_ema closes 12 - calculate_ema closes 26) * 0.9
        = 0.1 * (calculate_ema closes 12 - calculate_ema closes 26)
    ring
  have habs : abs (calculate_macd closes).2.2 * 10 = abs (calculate_macd closes).1 := by
    rw [h1, abs_mul]
    rw [abs_of_pos (by norm_num : (0.1 : ℝ) > 0)]
    ring
  refine ⟨h1, ?_, ?_, ?_⟩
  · constructor
    · rintro ⟨-, h⟩; exact h
    · intro h; exact ⟨by rw [h1]; exact mul_pos (by norm_num) h, h⟩
  · constructor
    · rintro ⟨-, h⟩; exact h
    · intro h; exact ⟨by rw [h1]; exact mul_neg_of_pos_of_neg (by norm_num) h, h⟩
  · intro hne
    have hconf : (strategy_macd closes).confidence = min (macdRaw closes).2.1 100 := rfl
    have hsig : (strategy_macd closes).signal = (macdRaw closes).1 := rfl
    rw [hsig] at hne
    rw [hconf]
    simp only [macdRaw] at hne ⊢
    split_ifs at hne ⊢ with hb1 hb2
    · simp only []
      rw [habs]
      have hle : min (abs (calculate_macd closes).1) 30 ≤ 30 := min_le_right _ _
      exact min_eq_left (by linarith)
    · simp only []
      rw [habs]
      have hle : min (abs (calculate_macd closes).1) 30 ≤ 30 := min_le_right _ _
      exact min_eq_left (by linarith)
    · exact absurd rfl hne

lemma pos_part_eq_max (d : ℝ) : (if d > 0 then d else 0) = max d 0 := by
  split_ifs with h
  · exact (max_eq_left h.le).symm
  · exact (max_eq_right (le_of_not_lt h)).symm

lemma neg_part_eq_max (d : ℝ) : (if d < 0 then -d else 0) = max (-d) 0 := by
  split_ifs with h
  · exact (max_eq_left (by linarith)).symm
  · exact (max_eq_right (by linarith)).symm

lemma lastN_map (n : ℕ) (f : ℝ → ℝ) (xs : List ℝ) :
    lastN n (xs.map f) = (lastN n xs).map f := by
  unfold lastN
  rw [List.length_map, List.map_drop]

/-- C4: `calculate_rsi` returns exactly 50.0 on histories shorter than
`period + 1` points, and otherwise the simple (non-Wilder) RSI over the
trailing `period` deltas, with the documented 100.0 result when the
average loss is exactly zero — i.e. it coincides with the spec-side
`rsiSpec`. -/
theorem rsi_matches_spec (closes : List ℝ) (period : ℕ) (_hp : 1 ≤ period) :
    calculate_rsi closes period = rsiSpec closes period := by
  simp only [calculate_rsi, rsiSpec]
  rw [lastN_map, lastN_map]
  rw [show (fun d : ℝ => if d > 0 then d else 0) = fun d => max d 0 from funext pos_part_eq_max]
  rw [show (fun d : ℝ => if d < 0 then -d else 0) = fun d => max (-d) 0 from funext neg_part_eq_max]

/-- Witness for C4 at the default period 14 on a one-point history. -/
theorem rsi_matches_spec_witness :
    1 ≤ 14 ∧ calculate_rsi [1] 14 = rsiSpec [1] 14 :=
  ⟨by norm_num, rsi_matches_spec [1] 14 (by norm_num)⟩

lemma dropLast_drop_comm (l : List ℝ) (k : ℕ) :
    (l.drop k).dropLast = l.dropLast.drop k := by
  rw [List.dropLast_eq_take, List.dropLast_eq_take, List.drop_take, List.length_drop]
  congr 1
  omega

/-- C5 counterexample: on a 20-row candle history whose previous close is
-1 and whose last close is 1, the code's price change is 0 (the guard
`closes[-2] > 0` also fires on negative values), while the claimed
formula `(last - prev) / prev` gives -2. -/
theorem volume_breakout_price_change_cex :
    20 ≤ c5closes.length ∧ 20 ≤ c5volumes.length
    ∧ priceChangeOf c5closes
        ≠ (npLast c5closes - npLast c5closes.dropLast) / npLast c5closes.dropLast := by
  have hdrop : c5closes.dropLast = List.replicate 18 1 ++ [-1] := by
    unfold c5closes
    rw [show (List.replicate 18 (1 : ℝ) ++ [-1, 1])
          = (List.replicate 18 (1 : ℝ) ++ [-1]) ++ [1] by simp]
    exact List.dropLast_concat
  have hprev : npLast c5closes.dropLast = -1 := by
    rw [hdrop]
    exact List.getLastD_concat _ _ _
  have hlastc : npLast c5closes = 1 := by
    unfold c5closes npLast
    rw [show (List.replicate 18 (1 : ℝ) ++ [-1, 1])
          = (List.replicate 18 (1 : ℝ) ++ [-1]) ++ [1] by simp]
    exact List.getLastD_concat _ _ _
  refine ⟨by simp [c5closes], by simp [c5volumes], ?_⟩
  have h0 : priceChangeOf c5closes = 0 := by
    simp only [priceChangeOf, hprev]
    norm_num
  rw [h0, hlastc, hprev]
  norm_num

/-- C5 amended: for a candle array with at least 20 volume points, the
slice `volumes[-20:-1]` is exactly the previous 19 volumes excluding the
current one, the volume ratio is `current / mean` whenever that mean is
positive and falls back to 1.0 whenever it is zero or negative (not only
when it is zero), and the price change is `(last - prev) / prev` whenever
the previous close is positive and 0 whenever it is zero or negative. -/
theorem volume_breakout_guards (closes volumes : List ℝ) (_h20 : 20 ≤ volumes.length) :
    (lastN 20 volumes).dropLast = prevVolumes19 volumes
    ∧ volRatioOf volumes =
        (if mean (prevVolumes19 volumes) > 0 then npLast volumes / mean (prevVolumes19 volumes)
         else 1.0)
    ∧ priceChangeOf closes =
        (if npLast closes.dropLast > 0
         then (npLast closes - npLast closes.dropLast) / npLast closes.dropLast else 0) := by
  have hslice : (lastN 20 volumes).dropLast = prevVolumes19 volumes := by
    unfold prevVolumes19 lastN
    rw [dropLast_drop_comm, List.length_dropLast]
    congr 1
  refine ⟨hslice, ?_, rfl⟩
  simp only [volRatioOf, hslice]

/-- Witness for C5's amended statement on a concrete 20-point history. -/
theorem volume_breakout_guards_witness :
    20 ≤ c5volumes.length
    ∧ ((lastN 20 c5volumes).dropLast = prevVolumes19 c5volumes
      ∧ volRatioOf c5volumes =
          (if mean (prevVolumes19 c5volumes) > 0
           then npLast c5volumes / mean (prevVolumes19 c5volumes) else 1.0)
      ∧ priceChangeOf ([] : List ℝ) =
          (if npLast ([] : List ℝ).dropLast > 0
           then (npLast ([] : List ℝ) - npLast ([] : List ℝ).dropLast)
                  / npLast ([] : List ℝ).dropLast
           else 0)) :=
  ⟨by simp [c5volumes], volume_breakout_guards [] c5volumes (by simp [c5volumes])⟩

lemma rsiRaw_conf (closes : List ℝ) :
    50 ≤ (rsiRaw closes).2.1
    ∧ ((rsiRaw closes).1 = .NEUTRAL → (rsiRaw closes).2.1 = 50)
    ∧ ((rsiRaw closes).1 ≠ .NEUTRAL → 55 ≤ (rsiRaw closes).2.1) := by
  simp only [rsiRaw]
  split_ifs with h1 h2 h3 h4 <;> norm_num
  · obtain ⟨hr, -⟩ := h1
    exact ⟨by linarith, fun _ => by linarith⟩
  · obtain ⟨hr, -⟩ := h2
    exact ⟨by linarith, fun _ => by linarith⟩
  · obtain ⟨hr, -⟩ := h3
    exact ⟨by linarith, fun _ => by linarith⟩
  · obtain ⟨hr, -⟩ := h4
    exact ⟨by linarith, fun _ => by linarith⟩

lemma strategy_rsi_conf (closes : List ℝ) :
    50 ≤ (strategy_rsi_mean_reversion closes).confidence
    ∧ (strategy_rsi_mean_reversion closes).confidence ≤ 100
    ∧ ((strategy_rsi_mean_reversion closes).signal = .NEUTRAL →
        (strategy_rsi_mean_reversion closes).confidence = 50)
    ∧ ((strategy_rsi_mean_reversion closes).signal ≠ .NEUTRAL →
        55 ≤ (strategy_rsi_mean_reversion closes).confidence) := by
  obtain ⟨hf, hneu, hnn⟩ := rsiRaw_conf closes
  have hconf : (strategy_rsi_mean_reversion closes).confidence
      = min (rsiRaw closes).2.1 100 := rfl
  have hsig : (strategy_rsi_mean_reversion closes).signal = (rsiRaw closes).1 := rfl
  rw [hconf, hsig]
  refine ⟨le_min hf (by norm_num), min_le_right _ _, ?_, ?_⟩
  · intro h
    rw [hneu h]
    norm_num
  · intro h
    exact le_min (hnn h) (by norm_num)

lemma gcRaw_conf (closes : List ℝ) :
    50 ≤ (gcRaw closes).2.1 ∧ (gcRaw closes).2.1 ≤ 100
    ∧ ((gcRaw closes).1 = .NEUTRAL → (gcRaw closes).2.1 = 50)
    ∧ ((gcRaw closes).1 ≠ .NEUTRAL → 55 ≤ (gcRaw closes).2.1) := by
  simp only [gcRaw]
  split_ifs <;> norm_num

lemma strategy_gc_conf (closes : List ℝ) :
    50 ≤ (strategy_golden_cross closes).confidence
    ∧ (strategy_golden_cross closes).confidence ≤ 100
    ∧ ((strategy_golden_cross closes).signal = .NEUTRAL →
        (strategy_golden_cross closes).confidence = 50)
    ∧ ((strategy_golden_cross closes).signal ≠ .NEUTRAL →
        55 ≤ (strategy_golden_cross closes).confidence) := by
  have hconf : (strategy_golden_cross closes).confidence = (gcRaw closes).2.1 := rfl
  have hsig : (strategy_golden_cross closes).signal = (gcRaw closes).1 := rfl
  rw [hconf, hsig]
  exact gcRaw_conf closes

lemma macdRaw_conf (closes : List ℝ) :
    50 ≤ (macdRaw closes).2.1
    ∧ ((macdRaw closes).1 = .NEUTRAL → (macdRaw closes).2.1 = 50)
    ∧ ((macdRaw closes).1 ≠ .NEUTRAL → 55 ≤ (macdRaw closes).2.1) := by
  have habs : (0 : ℝ) ≤ min (abs (calculate_macd closes).2.2 * 10) 30 :=
    le_min (by positivity) (by norm_num)
  simp only [macdRaw]
  split_ifs <;> norm_num <;>
    exact ⟨by linarith, fun _ => by linarith⟩

lemma strategy_macd_conf (closes : List ℝ) :
    50 ≤ (strategy_macd closes).confidence
    ∧ (strategy_macd closes).confidence ≤ 100
    ∧ ((strategy_macd closes).signal = .NEUTRAL →
        (strategy_macd closes).confidence = 50)
    ∧ ((strategy_macd closes).signal ≠ .NEUTRAL →
        55 ≤ (strategy_macd closes).confidence) := by
  obtain ⟨hf, hneu, hnn⟩ := macdRaw_conf closes
  have hconf : (strategy_macd closes).confidence = min (macdRaw closes).2.1 100 := rfl
  have hsig : (strategy_macd closes).signal = (macdRaw closes).1 := rfl
  rw [hconf, hsig]
  refine ⟨le_min hf (by norm_num), min_le_right _ _, ?_, ?_⟩
  · intro h
    rw [hneu h]
    norm_num
  · intro h
    exact le_min (hnn h) (by norm_num)

lemma vbRaw_conf (closes volumes : List ℝ) :
    50 ≤ (vbRaw closes volumes).2.1
    ∧ ((vbRaw closes volumes).1 = .NEUTRAL → (vbRaw closes volumes).2.1 = 50)
    ∧ ((vbRaw closes volumes).1 ≠ .NEUTRAL → 55 ≤ (vbRaw closes volumes).2.1) := by
  simp only [vbRaw]
  split_ifs with h1 h2 h3 h4 <;> norm_num
  · have h0 : (0 : ℝ) ≤ min (volRatioOf volumes * 5) 20 :=
      le_min (by nlinarith [h1.1]) (by norm_num)
    exact ⟨by linarith, fun _ => by linarith⟩
  · have h0 : (0 : ℝ) ≤ min (volRatioOf volumes * 5) 20 :=
      le_min (by nlinarith [h2.1]) (by norm_num)
    exact ⟨by linarith, fun _ => by linarith⟩
  · have h0 : (0 : ℝ) ≤ min (volRatioOf volumes * 5) 20 :=
      le_min (by nlinarith [h3.1]) (by norm_num)
    exact ⟨by linarith, fun _ => by linarith⟩
  · have h0 : (0 : ℝ) ≤ min (volRatioOf volumes * 5) 20 :=
      le_min (by nlinarith [h4.1]) (by norm_num)
    exact ⟨by linarith, fun _ => by linarith⟩

lemma strategy_vb_conf (closes volumes : List ℝ) :
    50 ≤ (strategy_volume_breakout closes volumes).confidence
    ∧ (strategy_volume_breakout closes volumes).confidence ≤ 100
    ∧ ((strategy_volume_breakout closes volumes).signal = .NEUTRAL →
        (strategy_volume_breakout closes volumes).confidence = 50)
    ∧ ((strategy_volume_breakout closes volumes).signal ≠ .NEUTRAL →
        55 ≤ (strategy_volume_breakout closes volumes).confidence) := by
  by_cases h : volumes.length < 20
  · have hconf : (strategy_volume_breakout closes volumes).confidence = 50 := by
      norm_num [strategy_volume_breakout, h]
    have hsig : (strategy_volume_breakout closes volumes).signal = .NEUTRAL := by
      simp [strategy_volume_breakout, h]
    rw [hconf, hsig]
    norm_num
  · obtain ⟨hf, hneu, hnn⟩ := vbRaw_conf closes volumes
    have hconf : (strategy_volume_breakout closes volumes).confidence
        = min (vbRaw closes volumes).2.1 100 := by
      simp [strategy_volume_breakout, h]
    have hsig : (strategy_volume_breakout closes volumes).signal
        = (vbRaw closes volumes).1 := by
      simp [strategy_volume_breakout, h]
    rw [hconf, hsig]
    refine ⟨le_min hf (by norm_num), min_le_right _ _, ?_, ?_⟩
    · intro hx
      rw [hneu hx]
      norm_num
    · intro hx
      exact le_min (hnn hx) (by norm_num)

/-- C2: for every non-empty candle array, the confidence of every
StrategySignal returned by each of the four strategies lies in [0, 100]. -/
theorem strategies_confidence_in_range (closes volumes : List ℝ) (_hne : closes ≠ []) :
    ∀ s ∈ runStrategies closes volumes, 0 ≤ s.confidence ∧ s.confidence ≤ 100 := by
  intro s hs
  simp only [runStrategies, List.mem_cons, List.not_mem_nil, or_false] at hs
  rcases hs with h | h | h | h <;> subst h
  · obtain ⟨h1, h2, -, -⟩ := strategy_rsi_conf closes
    exact ⟨by linarith, h2⟩
  · obtain ⟨h1, h2, -, -⟩ := strategy_gc_conf closes
    exact ⟨by linarith, h2⟩
  · obtain ⟨h1, h2, -, -⟩ := strategy_macd_conf closes
    exact ⟨by linarith, h2⟩
  · obtain ⟨h1, h2, -, -⟩ := strategy_vb_conf closes volumes
    exact ⟨by linarith, h2⟩

/-- Witness for C2 on a concrete one-candle history. -/
theorem strategies_confidence_in_range_witness :
    ([(1 : ℝ)] ≠ ([] : List ℝ))
    ∧ ∀ s ∈ runStrategies [(1 : ℝ)] ([] : List ℝ),
        0 ≤ s.confidence ∧ s.confidence ≤ 100 :=
  ⟨by simp, strategies_confidence_in_range [(1 : ℝ)] ([] : List ℝ) (by simp)⟩

lemma aggFold_go (weights : List (String × ℝ)) (strats : List StrategySignal)
    (init : ℝ × ℝ × ℝ) :
    strats.foldl
      (fun acc s =>
        let w := stratWeight weights s.name
        (acc.1 + w,
         acc.2.1 + (s.signal.value : ℝ) * w * (s.confidence / 100),
         acc.2.2 + s.confidence * w))
      init
      = (init.1 + specTotalWeight weights strats,
         init.2.1 + specSignalSum weights strats,
         init.2.2 + specConfSum weights strats) := by
  induction strats generalizing init with
  | nil => simp [specTotalWeight, specSignalSum, specConfSum]
  | cons s rest ih =>
    rw [List.foldl_cons, ih]
    simp only [specTotalWeight, specSignalSum, specConfSum, List.map_cons, List.sum_cons]
    refine Prod.ext ?_ (Prod.ext ?_ ?_) <;> simp <;> ring

lemma aggregateFold_eq (weights : List (String × ℝ)) (strats : List StrategySignal) :
    aggregateFold weights strats
      = (specTotalWeight weights strats, specSignalSum weights strats,
         specConfSum weights strats) := by
  rw [aggregateFold, aggFold_go]
  norm_num

/-- C3: the aggregator accumulates exactly the spec's per-strategy
contributions `numericValue * weight * (confidence / 100)`, total weight,
and weighted confidences; with positive total weight the averages are the
two quotients, and with zero total weight it returns the defensive
`(0, 50)` pair without dividing, and average signal 0 discretizes to
NEUTRAL. -/
theorem aggregator_matches_spec (weights : List (String × ℝ))
    (s1 s2 s3 s4 : StrategySignal) (_hw : ∀ p ∈ weights, 0 ≤ p.2) :
    aggregateFold weights [s1, s2, s3, s4]
      = (specTotalWeight weights [s1, s2, s3, s4],
         specSignalSum weights [s1, s2, s3, s4],
         specConfSum weights [s1, s2, s3, s4])
    ∧ (specTotalWeight weights [s1, s2, s3, s4] > 0 →
        combineAverages (aggregateFold weights [s1, s2, s3, s4])
          = (specSignalSum weights [s1, s2, s3, s4]
               / specTotalWeight weights [s1, s2, s3, s4],
             specConfSum weights [s1, s2, s3, s4]
               / specTotalWeight weights [s1, s2, s3, s4]))
    ∧ (specTotalWeight weights [s1, s2, s3, s4] = 0 →
        combineAverages (aggregateFold weights [s1, s2, s3, s4]) = (0, 50)
        ∧ classify 0 = .NEUTRAL) := by
  have heq := aggregateFold_eq weights [s1, s2, s3, s4]
  refine ⟨heq, ?_, ?_⟩
  · intro hpos
    rw [heq]
    simp only [combineAverages]
    rw [if_pos hpos]
  · intro hzero
    rw [heq]
    simp only [combineAverages, hzero]
    norm_num
    simp only [classify]
    norm_num

/-- Witness for C3 with the empty weight table and four neutral votes. -/
theorem aggregator_matches_spec_witness :
    (∀ p ∈ ([] : List (String × ℝ)), 0 ≤ p.2)
    ∧ aggregateFold []
        [⟨"A", .NEUTRAL, 50, [], "r"⟩, ⟨"B", .NEUTRAL, 50, [], "r"⟩,
         ⟨"C", .NEUTRAL, 50, [], "r"⟩, ⟨"D", .NEUTRAL, 50, [], "r"⟩]
      = (specTotalWeight []
          [⟨"A", .NEUTRAL, 50, [], "r"⟩, ⟨"B", .NEUTRAL, 50, [], "r"⟩,
           ⟨"C", .NEUTRAL, 50, [], "r"⟩, ⟨"D", .NEUTRAL, 50, [], "r"⟩],
         specSignalSum []
          [⟨"A", .NEUTRAL, 50, [], "r"⟩, ⟨"B", .NEUTRAL, 50, [], "r"⟩,
           ⟨"C", .NEUTRAL, 50, [], "r"⟩, ⟨"D", .NEUTRAL, 50, [], "r"⟩],
         specConfSum []
          [⟨"A", .NEUTRAL, 50, [], "r"⟩, ⟨"B", .NEUTRAL, 50, [], "r"⟩,
           ⟨"C", .NEUTRAL, 50, [], "r"⟩, ⟨"D", .NEUTRAL, 50, [], "r"⟩]) :=
  ⟨by simp,
   (aggregator_matches_spec [] ⟨"A", .NEUTRAL, 50, [], "r"⟩ ⟨"B", .NEUTRAL, 50, [], "r"⟩
      ⟨"C", .NEUTRAL, 50, [], "r"⟩ ⟨"D", .NEUTRAL, 50, [], "r"⟩ (by simp)).1⟩

lemma stratWeight_nonneg (weights : List (String × ℝ))
    (hw : ∀ p ∈ weights, 0 ≤ p.2) (nm : String) : 0 ≤ stratWeight weights nm := by
  unfold stratWeight
  cases hfind : weights.find? (fun p => p.1 == nm) with
  | none => norm_num
  | some p => exact hw p (List.mem_of_find?_eq_some hfind)

/-- C10: every strategy returns confidence at least 50 (exactly 50 for
neutral outcomes, at least 55 on every non-neutral branch), so with a
non-negative weight table and positive total weight the composite
confidence is at least 50 — the "all per-strategy confidences are 0"
scenario is unreachable through `analyze`. -/
theorem strategies_confidence_floor (weights : List (String × ℝ)) (symbol : String)
    (price : ℝ) (closes volumes : List ℝ)
    (hw : ∀ p ∈ weights, 0 ≤ p.2) (_hne : closes ≠ []) :
    (∀ s ∈ runStrategies closes volumes,
        50 ≤ s.confidence
        ∧ (s.signal = .NEUTRAL → s.confidence = 50)
        ∧ (s.signal ≠ .NEUTRAL → 55 ≤ s.confidence))
    ∧ ((aggregateFold weights (runStrategies closes volumes)).1 > 0 →
        50 ≤ (analyzeCore weights symbol price closes volumes).confidence) := by
  constructor
  · intro s hs
    simp only [runStrategies, List.mem_cons, List.not_mem_nil, or_false] at hs
    rcases hs with h | h | h | h <;> subst h
    · obtain ⟨h1, -, h3, h4⟩ := strategy_rsi_conf closes
      exact ⟨h1, h3, h4⟩
    · obtain ⟨h1, -, h3, h4⟩ := strategy_gc_conf closes
      exact ⟨h1, h3, h4⟩
    · obtain ⟨h1, -, h3, h4⟩ := strategy_macd_conf closes
      exact ⟨h1, h3, h4⟩
    · obtain ⟨h1, -, h3, h4⟩ := strategy_vb_conf closes volumes
      exact ⟨h1, h3, h4⟩
  · intro hpos
    have hconf : (analyzeCore weights symbol price closes volumes).confidence
        = (combineAverages (aggregateFold weights (runStrategies closes volumes))).2 := rfl
    rw [hconf]
    simp only [combineAverages]
    rw [if_pos hpos]
    have heq := aggregateFold_eq weights (runStrategies closes volumes)
    rw [heq] at hpos
    rw [heq]
    show (50 : ℝ) ≤ specConfSum weights (runStrategies closes volumes)
        / specTotalWeight weights (runStrategies closes volumes)
    rw [le_div_iff₀ hpos]
    simp only [runStrategies, specTotalWeight, specConfSum, List.map_cons, List.sum_cons,
      List.map_nil, List.sum_nil]
    have hw1 := stratWeight_nonneg weights hw (strategy_rsi_mean_reversion closes).name
    have hw2 := stratWeight_nonneg weights hw (strategy_golden_cross closes).name
    have hw3 := stratWeight_nonneg weights hw (strategy_macd closes).name
    have hw4 := stratWeight_nonneg weights hw (strategy_volume_breakout closes volumes).name
    have hc1 := (strategy_rsi_conf closes).1
    have hc2 := (strategy_gc_conf closes).1
    have hc3 := (strategy_macd_conf closes).1
    have hc4 := (strategy_vb_conf closes volumes).1
    have m1 := mul_le_mul_of_nonneg_right hc1 hw1
    have m2 := mul_le_mul_of_nonneg_right hc2 hw2
    have m3 := mul_le_mul_of_nonneg_right hc3 hw3
    have m4 := mul_le_mul_of_nonneg_right hc4 hw4
    linarith

/-- Witness for C10 on a concrete one-candle history with the empty
weight table. -/
theorem strategies_confidence_floor_witness :
    (∀ p ∈ ([] : List (String × ℝ)), 0 ≤ p.2)
    ∧ ([(1 : ℝ)] ≠ ([] : List ℝ))
    ∧ ((∀ s ∈ runStrategies [(1 : ℝ)] ([] : List ℝ),
          50 ≤ s.confidence
          ∧ (s.signal = .NEUTRAL → s.confidence = 50)
          ∧ (s.signal ≠ .NEUTRAL → 55 ≤ s.confidence))
      ∧ ((aggregateFold [] (runStrategies [(1 : ℝ)] ([] : List ℝ))).1 > 0 →
          50 ≤ (analyzeCore [] "BTCUSD" 1 [(1 : ℝ)] ([] : List ℝ)).confidence)) :=
  ⟨by simp, by simp,
   strategies_confidence_floor [] "BTCUSD" 1 [(1 : ℝ)] ([] : List ℝ) (by simp) (by simp)⟩

lemma column_some_of_lt (j : ℕ) (candles : List (List ℝ))
    (h : ∀ row ∈ candles, j < row.length) : ∃ l, column j candles = some l := by
  induction candles with
  | nil => exact ⟨[], rfl⟩
  | cons row rest ih =>
    obtain ⟨l, hl⟩ := ih (fun r hr => h r (List.mem_cons_of_mem _ hr))
    obtain ⟨x, hx⟩ : ∃ x, row.get? j = some x :=
      ⟨_, List.get?_eq_get (h row (List.mem_cons_self _ _))⟩
    exact ⟨x :: l, by simp only [column, hx, hl]⟩

lemma column_none_of_short (j : ℕ) (candles : List (List ℝ)) (row : List ℝ)
    (hrow : row ∈ candles) (hshort : row.length ≤ j) : column j candles = none := by
  induction candles with
  | nil => cases hrow
  | cons r rest ih =>
    rcases List.mem_cons.mp hrow with h | h
    · subst h
      have hr : row.get? j = none := List.get?_eq_none.mpr hshort
      cases hc : column j rest <;> simp only [column, hr, hc]
    · have hrest := ih h
      cases hr : r.get? j <;> simp only [column, hr, hrest]

/-- C1: `analyze` fails fast with a clearly distinguishable invalid-input
error (the modelled `IndexError`) on an empty candle array or on rows
lacking the expected OHLCV columns, and succeeds on every well-formed
non-empty candle array. -/
theorem analyze_error_behavior (weights : List (String × ℝ)) (symbol : String)
    (candles : List (List ℝ)) :
    (wellFormed candles → ∃ r, analyze weights symbol candles = Except.ok r)
    ∧ (¬ wellFormed candles → ∃ e, analyze weights symbol candles = Except.error e) := by
  constructor
  · rintro ⟨hne, hlen⟩
    obtain ⟨lastRow, hlast⟩ : ∃ lr, candles.getLast? = some lr := by
      cases h : candles.getLast? with
      | none => exact absurd (List.getLast?_eq_none_iff.mp h) hne
      | some lr => exact ⟨lr, rfl⟩
    have hmem := List.mem_of_mem_getLast? hlast
    have h6 := hlen lastRow hmem
    obtain ⟨price, hprice⟩ : ∃ x, lastRow.get? 4 = some x :=
      ⟨_, List.get?_eq_get (by omega)⟩
    obtain ⟨closes, hcloses⟩ :=
      column_some_of_lt 4 candles (fun r hr => by have := hlen r hr; omega)
    obtain ⟨volumes, hvolumes⟩ :=
      column_some_of_lt 5 candles (fun r hr => by have := hlen r hr; omega)
    exact ⟨_, by simp only [analyze, hlast, hprice, hcloses, hvolumes]; rfl⟩
  · intro hnwf
    unfold wellFormed at hnwf
    push_neg at hnwf
    by_cases hne : candles = []
    · subst hne
      exact ⟨_, by simp only [analyze]; rfl⟩
    · obtain ⟨row, hmem, hshort⟩ := hnwf hne
      have hc5 : column 5 candles = none :=
        column_none_of_short 5 candles row hmem (by omega)
      obtain ⟨lastRow, hlast⟩ : ∃ lr, candles.getLast? = some lr := by
        cases h : candles.getLast? with
        | none => exact absurd (List.getLast?_eq_none_iff.mp h) hne
        | some lr => exact ⟨lr, rfl⟩
      cases hp : lastRow.get? 4 with
      | none => exact ⟨_, by simp only [analyze, hlast, hp]; rfl⟩
      | some price =>
        cases hc4 : column 4 candles with
        | none => exact ⟨_, by simp only [analyze, hlast, hp, hc4, hc5]; rfl⟩
        | some closes => exact ⟨_, by simp only [analyze, hlast, hp, hc4, hc5]; rfl⟩

/-- Witness for C1: a well-formed single-candle array analyzes
successfully, and the empty array produces an invalid-input error. -/
theorem analyze_error_behavior_witness :
    (wellFormed [[0, 0, 0, 0, 0, 0]]
      ∧ ∃ r, analyze [] "BTCUSD" [[0, 0, 0, 0, 0, 0]] = Except.ok r)
    ∧ (¬ wellFormed ([] : List (List ℝ))
      ∧ ∃ e, analyze [] "ETHUSD" ([] : List (List ℝ)) = Except.error e) := by
  have hwf : wellFormed [[0, 0, 0, 0, 0, 0]] := by
    constructor
    · simp
    · intro row hr
      simp only [List.mem_singleton] at hr
      subst hr
      simp
  have hnwf : ¬ wellFormed ([] : List (List ℝ)) := by
    rintro ⟨h, -⟩
    exact h rfl
  exact ⟨⟨hwf, (analyze_error_behavior [] "BTCUSD" _).1 hwf⟩,
         ⟨hnwf, (analyze_error_behavior [] "ETHUSD" _).2 hnwf⟩⟩
